import Mathlib

/-!
# Draft: language resolution and manifest discovery

A shallow embedding of `cmd/create_test.go` (`mockCreateCmd.mockDetectLanguage`)
and `cmd/validate.go` (`isDirectory`, `getManifests`, `validateCmd.run`).

Go values are embedded as follows.

* `error` is `Option GoError`: `none` is the nil error.
* `*config.DraftConfig` is `Option DraftConfig`: `none` is the nil pointer.
* A function with several results returns a tuple.
* Calls that leave the process (classifier, registry construction, stat, walk,
  rule engine) are recorded in a list of `Call`s returned next to the result.
-/

set_option linter.dupNamespace false

namespace Draft

/-! ## Go error values -/

/-- Go error values. `sentinel` is a package-level variable made with `errors.New`
and compared by identity, `errorString` is a fresh error that carries only text
(`errors.New`, or `fmt.Errorf` without the `%w` verb), `wrapError` is what
`fmt.Errorf` builds when its format has the `%w` verb: the formatted text and
the operand, which `Unwrap` gives back. -/
inductive GoError where
  | sentinel (text : String)
  | errorString (s : String)
  | wrapError (msg : String) (err : GoError)
  deriving DecidableEq, Repr

namespace GoError

/-- The `Error()` method. -/
def Error : GoError → String
  | sentinel text => text
  | errorString s => s
  | wrapError msg _ => msg

/-- The `Unwrap()` method (`errors.Unwrap`): only a `wrapError` has a cause. -/
def Unwrap : GoError → Option GoError
  | wrapError _ err => some err
  | _ => none

/-- The chain `err, Unwrap(err), Unwrap(Unwrap(err)), ...` that `errors.Is` walks. -/
def chain : GoError → List GoError
  | wrapError msg err => wrapError msg err :: chain err
  | sentinel text => [sentinel text]
  | errorString s => [errorString s]

/-- The test `errors.Is(err, target)`: target occurs in the chain of err. -/
def Is (err target : GoError) : Bool := decide (target ∈ err.chain)

end GoError

/-- The call `fmt.Errorf(text)` and `fmt.Errorf(format, args...)` where the format has no
`%w` verb; `text` is the formatted message. -/
def Errorf (text : String) : GoError := GoError.errorString text

/-- The call `fmt.Errorf(format + "%w", ..., err)`: `text` is the formatted message up to
the verb, and the verb prints `err.Error()`. -/
def ErrorfW (text : String) (err : GoError) : GoError :=
  GoError.wrapError (text ++ err.Error) err

/-- Modelled from the spec: the package variable `ErrNoLanguageDetected` (the failure
`NoLanguageDetected`), which `cmd/create_test.go` returns but does not declare. -/
def ErrNoLanguageDetected : GoError := GoError.sentinel "no languages were detected"

/-! ## Strings -/

/-- The function `strings.ToLower` on a string of runes: every rune is mapped by
`unicode.ToLower`. The case table behind `unicode.ToLower` belongs to the standard
library, not to this repository, and is the parameter `lower`. -/
def ToLower (lower : Char → Char) (s : String) : String := String.mk (s.data.map lower)

/-! ## Language resolution (`cmd/create_test.go`) -/

/-- Modelled from the spec: the opaque configuration object `config.DraftConfig`, whose
declaration is not among the sources. The resolver never looks inside it. -/
structure DraftConfig where
  name : String
  deriving DecidableEq, Repr

/-- Modelled from the spec: `linguist.Language`, the `DetectedLanguage` record
`{name, percent, colorHint}`. `Percent` is kept in hundredths of a percent; the resolver
only logs it. -/
structure Language where
  Language : String
  Percent : Nat
  Color : String
  deriving DecidableEq, Repr

/-- The registry `languages.Languages`, whose package is not among the sources: the two
methods the resolver calls on it, taken as they are. `ContainsLanguage` tells whether an
identifier is supported, `GetConfig` gives the profile of an identifier, or nil. -/
structure Languages where
  ContainsLanguage : String → Bool
  GetConfig : String → Option DraftConfig

/-- What the resolver calls outside `cmd`: the classifier `linguist.ProcessDir`, the
alias step `linguist.Alias`, the registry constructor `languages.CreateLanguages`, and
the function `unicode.ToLower` that `strings.ToLower` applies to every rune. -/
structure Env where
  ProcessDir : String → List Language × Option GoError
  Alias : Language → Language
  CreateLanguages : String → Languages
  unicodeToLower : Char → Char

/-- Calls that leave the process, in the order they are made. -/
inductive Call where
  | ProcessDir (dir : String)
  | CreateLanguages (dir : String)
  | Stat (path : String)
  | WalkDir (fsRoot root : String)
  | ValidateManifests (fsRoot : String) (manifests : List String)
  deriving DecidableEq, Repr

/-- The struct `config.CreateConfig`, of which only `LanguageType` is read. -/
structure CreateConfig where
  LanguageType : String
  deriving DecidableEq, Repr

/-- The struct `mockCreateCmd`, of which `dest` and `createConfig` are read. -/
structure mockCreateCmd where
  dest : String
  createConfig : CreateConfig
  deriving DecidableEq, Repr

/-- The three results of `mockDetectLanguage`. -/
abbrev Resolution := Option DraftConfig × String × Option GoError

/-- The loop `for _, lang := range langs` of `mockDetectLanguage` (lines 80-96), with the
final `return nil, "", ErrNoLanguageDetected` as the case of the exhausted list. -/
def detectLoop (lower : Char → Char) (supportedLangs : Languages)
    (Alias : Language → Language) (hasGo hasGoMod : Bool) : List Language → Resolution
  | [] => (none, "", some ErrNoLanguageDetected)
  | lang :: langs =>
    let detectedLang := Alias lang
    let lowerLang := ToLower lower detectedLang.Language
    if supportedLangs.ContainsLanguage lowerLang then
      let lowerLang := if lowerLang = "go" ∧ hasGo = true ∧ hasGoMod = true then "gomodule"
        else lowerLang
      let langConfig := supportedLangs.GetConfig lowerLang
      (langConfig, lowerLang, none)
    else
      detectLoop lower supportedLangs Alias hasGo hasGoMod langs

/-- The method `mockCreateCmd.mockDetectLanguage`. -/
def mockDetectLanguage (env : Env) (mcc : mockCreateCmd) : Resolution × List Call :=
  let hasGo := false
  let hasGoMod := false
  let detected : (List Language × Option GoError) × List Call :=
    if mcc.createConfig.LanguageType = "" then
      (env.ProcessDir mcc.dest, [Call.ProcessDir mcc.dest])
    else
      (([], none), [])
  match detected with
  | ((_, some err), calls) =>
    ((none, "", some (Errorf ("there was an error detecting the language: " ++ err.Error))),
      calls)
  | ((langs, none), calls) =>
    if mcc.createConfig.LanguageType = "" ∧ langs.length = 0 then
      ((none, "", some ErrNoLanguageDetected), calls)
    else
      let supportedLangs := env.CreateLanguages mcc.dest
      let calls := calls ++ [Call.CreateLanguages mcc.dest]
      if mcc.createConfig.LanguageType ≠ "" then
        let lowerLang := ToLower env.unicodeToLower mcc.createConfig.LanguageType
        match supportedLangs.GetConfig lowerLang with
        | none => ((none, "", some ErrNoLanguageDetected), calls)
        | some langConfig => ((some langConfig, lowerLang, none), calls)
      else
        (detectLoop env.unicodeToLower supportedLangs env.Alias hasGo hasGoMod langs, calls)

/-! ## Slash-separated paths (package `path`) -/

/-- The elements of a path between its slashes; there is always at least one. -/
def splitSlash : List Char → List (List Char)
  | [] => [[]]
  | c :: cs =>
    match splitSlash cs with
    | [] => [[c]]
    | e :: es => if c = '/' then [] :: e :: es else (c :: e) :: es

/-- One step of `path.Clean` on the elements kept so far (innermost first): a `..`
removes the element before it, is dropped at the start of a rooted path and is kept at the
start of any other; every other element is kept. -/
def cleanStep (rooted : Bool) (out : List (List Char)) (e : List Char) : List (List Char) :=
  if e = ['.', '.'] then
    match out with
    | [] => if rooted then [] else [e]
    | top :: below => if top = ['.', '.'] then e :: out else below
  else e :: out

/-- The function `path.Clean`: repeated slashes and `.` elements are removed, `..` is
resolved lexically, and the empty result is `"."`. -/
def Clean (path : String) : String :=
  if path = "" then "."
  else
    let rooted := path.data.head? = some '/'
    let elems := (splitSlash path.data).filter (fun e => e ≠ [] ∧ e ≠ ['.'])
    let out := elems.foldl (cleanStep rooted) []
    let body := String.mk (List.intercalate ['/'] out.reverse)
    if rooted then "/" ++ body else if out = [] then "." else body

/-- The call `path.Join(a, b)`: the non-empty arguments joined by a slash, then cleaned;
the empty string when both are empty. -/
def Join (a b : String) : String :=
  if a = "" ∧ b = "" then ""
  else if a = "" then Clean b
  else Clean (a ++ "/" ++ b)

/-- The function `fs.ValidPath`: `"."`, or slash-separated elements none of which is empty,
`.` or `..`. -/
def ValidPath (name : String) : Bool :=
  name = "." ∨ (splitSlash name.data).all (fun e => e ≠ [] ∧ e ≠ ['.'] ∧ e ≠ ['.', '.'])

/-! ## File trees and `fs.WalkDir` -/

/-- A file-system entry with all that lies below it. A node answers the methods of
`fs.FileInfo` and `fs.DirEntry` that the program calls (`Name`, `IsDir`); for a directory,
`entries` and `readErr` are the two results of `fs.ReadDir` on it (the listing, which
`ReadDir` returns sorted by file name, and the error). -/
inductive Node where
  | file (name : String)
  | dir (name : String) (entries : List Node) (readErr : Option GoError)
  deriving Repr

/-- The method `IsDir`. -/
def Node.IsDir : Node → Bool
  | .file _ => false
  | .dir _ _ _ => true

/-- The method `Name`. -/
def Node.Name : Node → String
  | .file name => name
  | .dir name _ _ => name

/-- A file-system view `fs.FS`: `Stat` gives the entry a path names inside the view, or the
error of `fs.Stat`. -/
structure FS where
  Stat : String → Except GoError Node

/-- The variable `fs.SkipDir`. -/
def SkipDir : GoError := GoError.sentinel "skip this directory"

/-- The variable `fs.SkipAll`. -/
def SkipAll : GoError := GoError.sentinel "skip everything and stop the walk"

/-- The variable `fs.ErrInvalid`. -/
def ErrInvalid : GoError := GoError.sentinel "invalid argument"

/-- A value `&fs.PathError{Op, Path, Err}`: its text is `Op Path: Err`, and it unwraps
to `Err`. -/
def PathError (op path : String) (err : GoError) : GoError :=
  GoError.wrapError (op ++ " " ++ path ++ ": " ++ err.Error) err

/-- The type `fs.WalkDirFunc`, with the state the closure updates passed through: the
path, the entry (nil when the root could not be opened), the error of the walk. -/
abbrev WalkDirFunc (σ : Type) := String → Option Node → Option GoError → σ → σ × Option GoError

mutual
/-- The function `walkDir` of package `io/fs`: visit `d`, then, for a directory, its listing
in order. -/
def walkDir {σ : Type} (walkDirFn : WalkDirFunc σ) (name : String) (d : Node) (s : σ) :
    σ × Option GoError :=
  match d with
  | .file n =>
    match walkDirFn name (some (.file n)) none s with
    | (s, err) => (s, err)
  | .dir n entries readErr =>
    match walkDirFn name (some (.dir n entries readErr)) none s with
    | (s, some err) => if err = SkipDir then (s, none) else (s, some err)
    | (s, none) =>
      match readErr with
      | some err =>
        match walkDirFn name (some (.dir n entries readErr)) (some err) s with
        | (s, some err) => if err = SkipDir then (s, none) else (s, some err)
        | (s, none) => walkDirEntries walkDirFn name entries s
      | none => walkDirEntries walkDirFn name entries s
/-- The loop `for _, d1 := range dirs` of `walkDir`. -/
def walkDirEntries {σ : Type} (walkDirFn : WalkDirFunc σ) (name : String) (dirs : List Node)
    (s : σ) : σ × Option GoError :=
  match dirs with
  | [] => (s, none)
  | d1 :: dirs =>
    let name1 := Join name d1.Name
    match walkDir walkDirFn name1 d1 s with
    | (s, some err) => if err = SkipDir then (s, none) else (s, some err)
    | (s, none) => walkDirEntries walkDirFn name dirs s
end

/-- The function `fs.WalkDir`. -/
def WalkDir {σ : Type} (fsys : FS) (root : String) (fn : WalkDirFunc σ) (s : σ) :
    σ × Option GoError :=
  let (s, err) :=
    match fsys.Stat root with
    | .error err => fn root none (some err) s
    | .ok info => walkDir fn root info s
  if err = some SkipDir ∨ err = some SkipAll then (s, none) else (s, err)

/-! ## Manifest discovery and validation (`cmd/validate.go`) -/

/-- What a nil `fs.DirEntry` gives when `IsDir` is called on it: the run-time panic,
kept as an error value. -/
def nilDereference : GoError := GoError.sentinel "panic: nil pointer dereference"

/-- The closure that `getManifests` hands to `fs.WalkDir`; its state is the slice
`manifests`. -/
def getManifestsFunc : WalkDirFunc (List String) := fun path d err manifests =>
  match err with
  | some err => (manifests, some (ErrorfW ("error walking path " ++ path ++ " with error: ") err))
  | none =>
    match d with
    | none => (manifests, some nilDereference)
    | some d =>
      if !d.IsDir then (manifests ++ [path], none)
      else (manifests, none)

/-- The function `getManifests`. -/
def getManifests (f : FS) (path : String) : List String × Option GoError :=
  let manifests : List String := []
  match WalkDir f path getManifestsFunc manifests with
  | (_, some err) => ([], some (ErrorfW "could not walk directory: " err))
  | (manifests, none) => (manifests, none)

/-- The outside world of `validateCmd.run`: `Stat` is `os.Stat` (the entry at a path of
the operating system, with what lies below it, or the error), `ValidateManifests` is the
rule engine `safeguards.ValidateManifests`, given the directory of the view it receives
and the manifest paths. -/
structure World where
  Stat : String → Except GoError Node
  ValidateManifests : String → List String → Option GoError

/-- The call `os.DirFS(dir)`: the view that resolves a name to `dir + "/" + name`, after
rejecting an empty `dir` and names that are not valid paths. The `*PathError` that
`os.Stat` returns (a wrapped cause) is handed on with the name as its path. -/
def DirFS (w : World) (dir : String) : FS where
  Stat := fun name =>
    if dir = "" then
      Except.error (PathError "stat" name (GoError.errorString "os: DirFS with empty root"))
    else if ValidPath name = false then Except.error (PathError "stat" name ErrInvalid)
    else
      match w.Stat (dir ++ "/" ++ name) with
      | .error (.wrapError _ cause) => Except.error (PathError "stat" name cause)
      | .error err => Except.error err
      | .ok info => Except.ok info

/-- The function `isDirectory`. -/
def isDirectory (w : World) (path : String) : Bool × Option GoError :=
  match w.Stat path with
  | .error err => (false, some err)
  | .ok fileInfo => (fileInfo.IsDir, none)

/-- The struct `validateCmd`. -/
structure validateCmd where
  safeguardsOnly : Bool
  manifestPath : String
  deriving DecidableEq, Repr

/-- Lines 91-100 of `validateCmd.run`, entered with the calls made so far: the choice
between walking the directory and taking the single file. The branch either returns from
`run` (`Except.error`, line 96) or leaves the variables `manifests` and `err` for the check
of line 102 (`Except.ok`). The variable `err` is nil on entry, after the check of line 87. -/
def validateCmd.branch (w : World) (vc : validateCmd) (isDir : Bool) (calls : List Call) :
    Except (Option GoError) (List String × Option GoError) × List Call :=
  let err : Option GoError := none
  let manifests : List String := []
  let manifestFS := DirFS w vc.manifestPath
  if isDir then
    match getManifests manifestFS vc.manifestPath with
    | (manifests, err) =>
      if err ≠ none then
        (Except.error err, calls ++ [Call.WalkDir vc.manifestPath vc.manifestPath])
      else
        (Except.ok (manifests, err), calls ++ [Call.WalkDir vc.manifestPath vc.manifestPath])
  else
    (Except.ok (manifests ++ [vc.manifestPath], err), calls)

/-- The method `validateCmd.run`: its error, and the calls it made. -/
def validateCmd.run (w : World) (vc : validateCmd) : Option GoError × List Call :=
  if vc.manifestPath = "" then
    (some (Errorf "path to the manifests cannot be empty"), [])
  else
    let calls := [Call.Stat vc.manifestPath]
    match isDirectory w vc.manifestPath with
    | (_, some err) =>
      (some (ErrorfW "could not determine if given path is a directory: " err), calls)
    | (isDir, none) =>
      match validateCmd.branch w vc isDir calls with
      | (.error err, calls) => (err, calls)
      | (.ok (_, some err), calls) => (some (ErrorfW "reading directory: " err), calls)
      | (.ok (manifests, none), calls) =>
        let calls := calls ++ [Call.ValidateManifests vc.manifestPath manifests]
        match w.ValidateManifests vc.manifestPath manifests with
        | some err => (some err, calls)
        | none => (none, calls)

/-- The number of calls of the rule engine among the calls made. -/
def ruleEngineCalls (calls : List Call) : Nat :=
  (calls.filter (fun call =>
    match call with
    | .ValidateManifests _ _ => true
    | _ => false)).length

/-! ## Notions the statements use -/

/-- The canonical identifier of a detected language: alias, then lowercase. -/
def canonical (lower : Char → Char) (Alias : Language → Language) (lang : Language) :
    String :=
  ToLower lower (Alias lang).Language

/-- The canonical identifier of the first candidate, in the order the classifier returned
them, that the registry supports. -/
def firstSupported (lower : Char → Char) (reg : Languages) (Alias : Language → Language)
    (langs : List Language) : Option String :=
  (langs.map (canonical lower Alias)).find? reg.ContainsLanguage

mutual
/-- The paths of the non-directory entries at and below an entry reached under the path
`name`, depth first, each directory in the order of its listing. -/
def Node.files (name : String) : Node → List String
  | .file _ => [name]
  | .dir _ entries _ => Node.filesOf name entries
/-- The files below the entries of the directory reached under the path `name`. -/
def Node.filesOf (name : String) : List Node → List String
  | [] => []
  | d :: ds => Node.files (Join name d.Name) d ++ Node.filesOf name ds
end

mutual
/-- Every entry at and below an entry reached under the path `name`, with its path and
whether it is a directory, depth first, each directory before its listing. -/
def Node.visited (name : String) : Node → List (String × Bool)
  | .file _ => [(name, false)]
  | .dir _ entries _ => (name, true) :: Node.visitedOf name entries
/-- The entries at and below the entries of the directory reached under the path `name`. -/
def Node.visitedOf (name : String) : List Node → List (String × Bool)
  | [] => []
  | d :: ds => Node.visited (Join name d.Name) d ++ Node.visitedOf name ds
end

mutual
/-- The number of non-directory entries of a tree. -/
def Node.countFiles : Node → Nat
  | .file _ => 1
  | .dir _ entries _ => Node.countFilesOf entries
/-- The number of non-directory entries of a list of trees. -/
def Node.countFilesOf : List Node → Nat
  | [] => 0
  | d :: ds => Node.countFiles d + Node.countFilesOf ds
end

mutual
/-- The number of directories of a tree, its root included. -/
def Node.countDirs : Node → Nat
  | .file _ => 0
  | .dir _ entries _ => 1 + Node.countDirsOf entries
/-- The number of directories of a list of trees. -/
def Node.countDirsOf : List Node → Nat
  | [] => 0
  | d :: ds => Node.countDirs d + Node.countDirsOf ds
end

mutual
/-- The first directory, in the order of the walk, whose listing cannot be read: its path
and the error. -/
def Node.firstFailure (name : String) : Node → Option (String × GoError)
  | .file _ => none
  | .dir _ _ (some err) => some (name, err)
  | .dir _ entries none => Node.firstFailureOf name entries
/-- The first failure below the entries of the directory reached under the path `name`. -/
def Node.firstFailureOf (name : String) : List Node → Option (String × GoError)
  | [] => none
  | d :: ds =>
    match Node.firstFailure (Join name d.Name) d with
    | some failure => some failure
    | none => Node.firstFailureOf name ds
end

/-- The first error the walk of `root` in the view meets: the root cannot be opened, or a
directory below it cannot be read. -/
def walkFailure (fsys : FS) (root : String) : Option (String × GoError) :=
  match fsys.Stat root with
  | .error err => some (root, err)
  | .ok info => info.firstFailure root

/-! ## Concrete inputs -/

/-- A directory with two files and a subdirectory that holds one file and an empty
directory. -/
def manifestsTree : Node :=
  .dir "manifests"
    [.file "a.yaml", .dir "base" [.file "c.yaml", .dir "empty" [] none] none, .file "d.yaml"]
    none

/-- The same directory, where the listing of `base` fails after `a.yaml` was visited. -/
def brokenTree : Node :=
  .dir "manifests"
    [.file "a.yaml",
      .dir "base" [.file "c.yaml"] (some (GoError.errorString "permission denied")),
      .file "d.yaml"]
    none

/-- The view in which `.` names `manifestsTree` and nothing else exists. -/
def manifestsFS : FS :=
  ⟨fun name => if name = "." then Except.ok manifestsTree
    else Except.error (PathError "stat" name (GoError.sentinel "file does not exist"))⟩

/-- The view in which `.` names `brokenTree` and nothing else exists. -/
def brokenFS : FS :=
  ⟨fun name => if name = "." then Except.ok brokenTree
    else Except.error (PathError "stat" name (GoError.sentinel "file does not exist"))⟩

/-- A world whose current directory holds `manifestsTree` under the name `manifests`, and
whose rule engine accepts everything. -/
def manifestsWorld : World :=
  ⟨fun path => if path = "manifests" ∨ path = "manifests/." then Except.ok manifestsTree
    else Except.error (PathError "stat" path (GoError.sentinel "no such file or directory")),
    fun _ _ => none⟩

/-- A part of the table of `unicode.ToLower`, for the concrete inputs: the capital letters
of Basic Latin (A to Z) and of Latin-1 (U+00C0 to U+00DE without the multiplication
sign) go to the letter 32 places on; every other rune is left as it is. -/
def sampleToLower (c : Char) : Char :=
  if (65 ≤ c.toNat ∧ c.toNat ≤ 90) ∨ (192 ≤ c.toNat ∧ c.toNat ≤ 222 ∧ c.toNat ≠ 215) then
    Char.ofNat (c.toNat + 32)
  else c

/-- The classifier result `{Go, 92.0}`. -/
def goLang : Language := ⟨"Go", 9200, "#00ADD8"⟩

/-- A classifier result the registries below have no profile for. -/
def rustLang : Language := ⟨"Rust", 800, "#dea584"⟩

/-- A detected language whose name is the empty string. -/
def blankLang : Language := ⟨"", 10000, ""⟩

/-- A registry with the profiles `go` and `gomodule`. -/
def goRegistry : Languages :=
  ⟨fun lang => decide (lang = "go" ∨ lang = "gomodule"),
    fun lang => if lang = "go" then some ⟨"go"⟩
      else if lang = "gomodule" then some ⟨"gomodule"⟩ else none⟩

/-- A registry whose only profile is filed under the empty identifier. -/
def blankRegistry : Languages :=
  ⟨fun lang => decide (lang = ""), fun lang => if lang = "" then some ⟨"blank"⟩ else none⟩

/-- A registry that reports `go` as supported and has no profile to give for it. -/
def hollowRegistry : Languages := ⟨fun lang => decide (lang = "go"), fun _ => none⟩

/-- The classifier finds Rust, then Go; the registry is `goRegistry`. -/
def goEnv : Env := ⟨fun _ => ([rustLang, goLang], none), fun lang => lang, fun _ => goRegistry, sampleToLower⟩

/-- The classifier finds Rust, Go, then Rust again and a language with an empty name; the
registry is `goRegistry`. -/
def goTailEnv : Env :=
  ⟨fun _ => ([rustLang, goLang, rustLang, blankLang], none), fun lang => lang,
    fun _ => goRegistry, sampleToLower⟩

/-- A detected language whose name has a capital letter outside Basic Latin. -/
def elixirLang : Language := ⟨"ÉLIXIR", 6000, "#6e4a7e"⟩

/-- A registry with the profiles `élixir` and `go`. -/
def elixirRegistry : Languages :=
  ⟨fun lang => decide (lang = "élixir" ∨ lang = "go"),
    fun lang => if lang = "élixir" then some ⟨"élixir"⟩
      else if lang = "go" then some ⟨"go"⟩ else none⟩

/-- The classifier finds Rust, ÉLIXIR, then Go; the registry is `elixirRegistry`. -/
def elixirEnv : Env :=
  ⟨fun _ => ([rustLang, elixirLang, goLang], none), fun lang => lang,
    fun _ => elixirRegistry, sampleToLower⟩

/-- The classifier finds only Go; the registry is `goRegistry`. -/
def onlyGoEnv : Env := ⟨fun _ => ([goLang], none), fun lang => lang, fun _ => goRegistry, sampleToLower⟩

/-- The classifier finds only Rust; the registry is `goRegistry`. -/
def rustEnv : Env := ⟨fun _ => ([rustLang], none), fun lang => lang, fun _ => goRegistry, sampleToLower⟩

/-- The classifier finds a language with an empty name; the registry is `blankRegistry`. -/
def blankEnv : Env := ⟨fun _ => ([blankLang], none), fun lang => lang, fun _ => blankRegistry, sampleToLower⟩

/-- The classifier finds only Go; the registry is `hollowRegistry`. -/
def hollowEnv : Env := ⟨fun _ => ([goLang], none), fun lang => lang, fun _ => hollowRegistry, sampleToLower⟩

/-- The classifier fails with an error that carries only text. -/
def failingEnv : Env :=
  ⟨fun _ => ([], some (GoError.errorString "permission denied")), fun lang => lang,
    fun _ => goRegistry, sampleToLower⟩

/-- The classifier fails with an error of the same text that wraps a cause. -/
def failingEnvWrapped : Env :=
  ⟨fun _ => ([], some (GoError.wrapError "permission denied" (GoError.sentinel "EACCES"))),
    fun lang => lang, fun _ => goRegistry, sampleToLower⟩

/-- The error number `syscall.ENOENT`. -/
def ENOENT : GoError := GoError.sentinel "no such file or directory"

/-- The entry that a list of path elements names below an entry. -/
def Node.lookup : List String → Node → Option Node
  | [], d => some d
  | _ :: _, .file _ => none
  | e :: es, .dir _ entries _ =>
    match entries.find? (fun entry => entry.Name = e) with
    | some entry => Node.lookup es entry
    | none => none

/-- The world whose current directory is the tree `cwd`: `os.Stat` cleans the path and
follows its elements down from `cwd`; what is not there does not exist. -/
def treeWorld (cwd : Node) (engine : String → List String → Option GoError) : World :=
  ⟨fun path =>
    if path = "" then Except.error (PathError "stat" path ENOENT)
    else if Clean path = "." then Except.ok cwd
    else
      match cwd.lookup ((splitSlash (Clean path).data).map String.mk) with
      | some d => Except.ok d
      | none => Except.error (PathError "stat" path ENOENT),
    engine⟩

/-- The rule engine that rejects every manifest set. -/
def rejectAll : String → List String → Option GoError :=
  fun _ _ => some (GoError.errorString "validation failed")

/-- The rule engine that accepts every manifest set. -/
def acceptAll : String → List String → Option GoError := fun _ _ => none

/-- A current directory that holds the directory `manifests` of `manifestsTree` and the
single file `pod.yaml`. -/
def plainWorld : World :=
  treeWorld (.dir "." [manifestsTree, .file "pod.yaml"] none) rejectAll

/-- A current directory whose directory `manifests` holds the file `a.yaml` and a second
directory `manifests` with the file `b.yaml`. -/
def nestedWorld : World :=
  treeWorld
    (.dir "." [.dir "manifests" [.file "a.yaml", .dir "manifests" [.file "b.yaml"] none] none]
      none)
    acceptAll

/-! ## Lemmas on strings and errors -/

/-- The sample table lowers a lower-case rune to itself. -/
theorem sampleToLower_idem (c : Char) : sampleToLower (sampleToLower c) = sampleToLower c := by
  unfold sampleToLower
  by_cases h : (65 ≤ c.toNat ∧ c.toNat ≤ 90) ∨
      (192 ≤ c.toNat ∧ c.toNat ≤ 222 ∧ c.toNat ≠ 215)
  · rw [if_pos h]
    have hrange : 65 ≤ c.toNat ∧ c.toNat ≤ 222 := by omega
    have hv : (Char.ofNat (c.toNat + 32)).toNat = c.toNat + 32 := by
      obtain ⟨h1, h2⟩ := hrange
      generalize c.toNat = n at h1 h2
      interval_cases n <;> rfl
    rw [hv]
    have hout : ¬ ((65 ≤ c.toNat + 32 ∧ c.toNat + 32 ≤ 90) ∨
        (192 ≤ c.toNat + 32 ∧ c.toNat + 32 ≤ 222 ∧ c.toNat + 32 ≠ 215)) := by omega
    rw [if_neg hout]
  · rw [if_neg h, if_neg h]

/-- Lowering twice is lowering once, when the table lowers a lowered rune to itself. -/
theorem ToLower_idem (lower : Char → Char) (hlower : ∀ c, lower (lower c) = lower c)
    (s : String) : ToLower lower (ToLower lower s) = ToLower lower s := by
  simp only [ToLower, List.map_map]
  congr 1
  apply List.map_congr_left
  intro c _
  exact hlower c

/-- Lowering keeps the number of runes: only the empty string lowers to the empty string,
whatever the table. -/
theorem ToLower_eq_empty (lower : Char → Char) (s : String) :
    ToLower lower s = "" ↔ s = "" := by
  constructor
  · intro h
    have hd : (ToLower lower s).data = [] := by rw [h]
    simp only [ToLower, List.map_eq_nil_iff] at hd
    exact String.ext hd
  · intro h
    subst h
    rfl

/-! ## Lemmas on the resolver -/

theorem firstSupported_nil {lower : Char → Char} (reg : Languages) (al : Language → Language) :
    firstSupported lower reg al [] = none := rfl

theorem firstSupported_cons {lower : Char → Char} (reg : Languages) (al : Language → Language) (lang : Language)
    (langs : List Language) :
    firstSupported lower reg al (lang :: langs) =
      if reg.ContainsLanguage (canonical lower al lang) = true then some (canonical lower al lang)
      else firstSupported lower reg al langs := by
  simp only [firstSupported, List.map_cons, List.find?_cons]
  cases reg.ContainsLanguage (canonical lower al lang) <;> simp

/-- The first supported candidate splits the list: nothing before it is supported. -/
theorem firstSupported_split {lower : Char → Char} (reg : Languages) (al : Language → Language)
    (langs : List Language) (id : String) (h : firstSupported lower reg al langs = some id) :
    ∃ before lang after, langs = before ++ lang :: after ∧
      (∀ l ∈ before, reg.ContainsLanguage (canonical lower al l) = false) ∧
      canonical lower al lang = id ∧ reg.ContainsLanguage id = true := by
  induction langs with
  | nil => simp [firstSupported_nil] at h
  | cons lang langs ih =>
    rw [firstSupported_cons] at h
    by_cases hc : reg.ContainsLanguage (canonical lower al lang) = true
    · rw [if_pos hc] at h
      have hid : canonical lower al lang = id := Option.some.inj h
      exact ⟨[], lang, langs, rfl, by simp, hid, hid ▸ hc⟩
    · rw [if_neg hc] at h
      obtain ⟨before, l, after, hsplit, hbefore, hid, hsup⟩ := ih h
      refine ⟨lang :: before, l, after, by rw [hsplit]; rfl, ?_, hid, hsup⟩
      intro x hx
      rcases List.mem_cons.mp hx with hx | hx
      · subst hx
        simpa using hc
      · exact hbefore x hx

/-- A supported candidate anywhere in the list gives a first supported one. -/
theorem firstSupported_isSome {lower : Char → Char} (reg : Languages) (al : Language → Language)
    (langs : List Language)
    (h : ∃ lang ∈ langs, reg.ContainsLanguage (canonical lower al lang) = true) :
    ∃ id, firstSupported lower reg al langs = some id := by
  induction langs with
  | nil => simp at h
  | cons lang langs ih =>
    rw [firstSupported_cons]
    by_cases hc : reg.ContainsLanguage (canonical lower al lang) = true
    · exact ⟨_, by rw [if_pos hc]⟩
    · rw [if_neg hc]
      apply ih
      obtain ⟨l, hl, hsup⟩ := h
      rcases List.mem_cons.mp hl with hl | hl
      · subst hl
        exact absurd hsup hc
      · exact ⟨l, hl, hsup⟩

/-- No supported candidate in the list: there is no first supported one. -/
theorem firstSupported_eq_none {lower : Char → Char} (reg : Languages) (al : Language → Language)
    (langs : List Language)
    (h : ∀ lang ∈ langs, reg.ContainsLanguage (canonical lower al lang) = false) :
    firstSupported lower reg al langs = none := by
  induction langs with
  | nil => rfl
  | cons lang langs ih =>
    rw [firstSupported_cons, h lang (List.mem_cons_self _ _)]
    simpa using ih (fun l hl => h l (List.mem_cons_of_mem _ hl))

/-- The loop, with both flags false as `mockDetectLanguage` sets them, returns the first
supported candidate with its profile, or `ErrNoLanguageDetected`. -/
theorem detectLoop_eq {lower : Char → Char} (reg : Languages) (al : Language → Language) (langs : List Language) :
    detectLoop lower reg al false false langs =
      match firstSupported lower reg al langs with
      | some id => (reg.GetConfig id, id, none)
      | none => (none, "", some ErrNoLanguageDetected) := by
  induction langs with
  | nil => rfl
  | cons lang langs ih =>
    rw [firstSupported_cons]
    simp only [detectLoop, canonical] at ih ⊢
    by_cases hc : reg.ContainsLanguage (ToLower lower (al lang).Language) = true
    · simp [hc]
    · simp only [hc, if_false]
      exact ih

/-- With an empty override and a classifier that succeeds, the resolver returns what the
loop returns on the detected languages. -/
theorem mockDetectLanguage_detect (env : Env) (mcc : mockCreateCmd) (langs : List Language)
    (hover : mcc.createConfig.LanguageType = "")
    (hcls : env.ProcessDir mcc.dest = (langs, none)) :
    (mockDetectLanguage env mcc).1 =
      detectLoop env.unicodeToLower (env.CreateLanguages mcc.dest) env.Alias false false langs := by
  cases langs with
  | nil => simp [mockDetectLanguage, hover, hcls, detectLoop]
  | cons lang langs => simp [mockDetectLanguage, hover, hcls]

/-! ## Lemmas on the walk -/

theorem GoError.mem_chain_self (e : GoError) : e ∈ e.chain := by
  cases e <;> simp [GoError.chain]

mutual
/-- The walk with the closure of `getManifests`: without a failure below it appends the
files in order; with one it stops with the error of the closure for the first failure. -/
theorem walkDir_getManifestsFunc (name : String) (d : Node) (acc : List String) :
    (d.firstFailure name = none →
      walkDir getManifestsFunc name d acc = (acc ++ d.files name, none)) ∧
    (∀ p e, d.firstFailure name = some (p, e) →
      ∃ acc1, walkDir getManifestsFunc name d acc =
        (acc1, some (ErrorfW ("error walking path " ++ p ++ " with error: ") e))) :=
  match d with
  | .file n => by
    constructor
    · intro _
      simp [walkDir, getManifestsFunc, Node.IsDir, Node.files]
    · intro p e h
      simp [Node.firstFailure] at h
  | .dir n entries (some err) => by
    constructor
    · intro h
      simp [Node.firstFailure] at h
    · intro p e h
      simp only [Node.firstFailure, Option.some.injEq, Prod.mk.injEq] at h
      obtain ⟨hp, he⟩ := h
      subst hp he
      exact ⟨acc, by simp [walkDir, getManifestsFunc, Node.IsDir, ErrorfW, SkipDir]⟩
  | .dir n entries none => by
    have ih := walkDirEntries_getManifestsFunc name entries acc
    constructor
    · intro h
      simp only [Node.firstFailure] at h
      simpa [walkDir, getManifestsFunc, Node.IsDir, Node.files] using ih.1 h
    · intro p e h
      simp only [Node.firstFailure] at h
      simpa [walkDir, getManifestsFunc, Node.IsDir] using ih.2 p e h
/-- The loop over a listing, with the closure of `getManifests`. -/
theorem walkDirEntries_getManifestsFunc (name : String) (ds : List Node) (acc : List String) :
    (Node.firstFailureOf name ds = none →
      walkDirEntries getManifestsFunc name ds acc = (acc ++ Node.filesOf name ds, none)) ∧
    (∀ p e, Node.firstFailureOf name ds = some (p, e) →
      ∃ acc1, walkDirEntries getManifestsFunc name ds acc =
        (acc1, some (ErrorfW ("error walking path " ++ p ++ " with error: ") e))) :=
  match ds with
  | [] => by
    constructor
    · intro _
      simp [walkDirEntries, Node.filesOf]
    · intro p e h
      simp [Node.firstFailureOf] at h
  | d :: ds => by
    have ihd := walkDir_getManifestsFunc (Join name d.Name) d acc
    cases hd : Node.firstFailure (Join name d.Name) d with
    | none =>
      have ihs := walkDirEntries_getManifestsFunc name ds (acc ++ d.files (Join name d.Name))
      constructor
      · intro h
        simp only [Node.firstFailureOf, hd] at h
        simp [walkDirEntries, ihd.1 hd, ihs.1 h, Node.filesOf]
      · intro p e h
        simp only [Node.firstFailureOf, hd] at h
        obtain ⟨acc1, hacc⟩ := ihs.2 p e h
        exact ⟨acc1, by simp [walkDirEntries, ihd.1 hd, hacc]⟩
    | some failure =>
      obtain ⟨p1, e1⟩ := failure
      obtain ⟨acc1, hacc⟩ := ihd.2 p1 e1 hd
      constructor
      · intro h
        simp [Node.firstFailureOf, hd] at h
      · intro p e h
        simp only [Node.firstFailureOf, hd, Option.some.injEq, Prod.mk.injEq] at h
        obtain ⟨hp, he⟩ := h
        subst hp he
        exact ⟨acc1, by simp [walkDirEntries, hacc, ErrorfW, SkipDir]⟩
end

mutual
theorem Node.files_eq_visited (name : String) (d : Node) :
    d.files name = ((d.visited name).filter (fun entry => !entry.2)).map Prod.fst :=
  match d with
  | .file n => by simp [Node.files, Node.visited]
  | .dir n entries readErr => by
    simpa [Node.files, Node.visited] using Node.filesOf_eq_visitedOf name entries
theorem Node.filesOf_eq_visitedOf (name : String) (ds : List Node) :
    Node.filesOf name ds =
      ((Node.visitedOf name ds).filter (fun entry => !entry.2)).map Prod.fst :=
  match ds with
  | [] => by simp [Node.filesOf, Node.visitedOf]
  | d :: ds => by
    simp [Node.filesOf, Node.visitedOf, Node.files_eq_visited (Join name d.Name) d,
      Node.filesOf_eq_visitedOf name ds]
end

mutual
theorem Node.length_files (name : String) (d : Node) :
    (d.files name).length = d.countFiles ∧
      (d.visited name).length = d.countFiles + d.countDirs :=
  match d with
  | .file n => by simp [Node.files, Node.visited, Node.countFiles, Node.countDirs]
  | .dir n entries readErr => by
    have ih := Node.length_filesOf name entries
    simp only [Node.files, Node.visited, Node.countFiles, Node.countDirs, List.length_cons]
    omega
theorem Node.length_filesOf (name : String) (ds : List Node) :
    (Node.filesOf name ds).length = Node.countFilesOf ds ∧
      (Node.visitedOf name ds).length = Node.countFilesOf ds + Node.countDirsOf ds :=
  match ds with
  | [] => by simp [Node.filesOf, Node.visitedOf, Node.countFilesOf, Node.countDirsOf]
  | d :: ds => by
    have ihd := Node.length_files (Join name d.Name) d
    have ihs := Node.length_filesOf name ds
    simp only [Node.filesOf, Node.visitedOf, Node.countFilesOf, Node.countDirsOf,
      List.length_append]
    omega
end

/-- When the root opens and nothing below it fails, `getManifests` returns the files. -/
theorem getManifests_ok (f : FS) (root : String) (t : Node) (hstat : f.Stat root = .ok t)
    (hok : t.firstFailure root = none) : getManifests f root = (t.files root, none) := by
  have h := (walkDir_getManifestsFunc root t []).1 hok
  simp [getManifests, WalkDir, hstat, h]

/-! ## The language resolver: claims C1 to C7 -/

/-- C1, as amended. Let the registry return a profile for every identifier it reports as
supported, and not support the empty identifier. With an empty override, a classifier that
succeeds and at least one detected language whose canonical identifier (alias, then
`strings.ToLower`) the registry supports, the resolver returns no error, a non-nil
profile (the registry profile of the returned identifier) and a non-empty identifier: the
canonical identifier of the first supported candidate in the order the classifier
returned them, which is lowercase as the result of `strings.ToLower` (lowering it again
gives it back, for a table that lowers a lowered rune to itself). The classifier and the
registry constructor are each called once. -/
theorem C1_first_supported_candidate (env : Env) (mcc : mockCreateCmd) (langs : List Language)
    (hover : mcc.createConfig.LanguageType = "")
    (hcls : env.ProcessDir mcc.dest = (langs, none))
    (hsup : ∃ lang ∈ langs,
      (env.CreateLanguages mcc.dest).ContainsLanguage
        (canonical env.unicodeToLower env.Alias lang) = true)
    (hreg : ∀ lang, (env.CreateLanguages mcc.dest).ContainsLanguage lang = true →
      (env.CreateLanguages mcc.dest).GetConfig lang ≠ none ∧ lang ≠ "") :
    ∃ cfg id, (mockDetectLanguage env mcc).1 = (some cfg, id, none) ∧
      (env.CreateLanguages mcc.dest).GetConfig id = some cfg ∧
      id ≠ "" ∧
      (∃ before lang after, langs = before ++ lang :: after ∧
        (∀ l ∈ before,
          (env.CreateLanguages mcc.dest).ContainsLanguage
            (canonical env.unicodeToLower env.Alias l) = false) ∧
        id = ToLower env.unicodeToLower (env.Alias lang).Language ∧
        (env.CreateLanguages mcc.dest).ContainsLanguage id = true) ∧
      ((∀ c, env.unicodeToLower (env.unicodeToLower c) = env.unicodeToLower c) →
        ToLower env.unicodeToLower id = id) ∧
      (mockDetectLanguage env mcc).2 =
        [Call.ProcessDir mcc.dest, Call.CreateLanguages mcc.dest] := by
  obtain ⟨id, hid⟩ := firstSupported_isSome _ _ _ hsup
  obtain ⟨before, lang, after, hsplit, hbefore, hcanon, hcont⟩ :=
    firstSupported_split _ _ _ _ hid
  obtain ⟨hprofile, hne⟩ := hreg id hcont
  obtain ⟨cfg, hcfg⟩ := Option.ne_none_iff_exists'.mp hprofile
  refine ⟨cfg, id, ?_, hcfg, hne,
    ⟨before, lang, after, hsplit, hbefore, hcanon.symm, hcont⟩, ?_, ?_⟩
  · rw [mockDetectLanguage_detect env mcc langs hover hcls, detectLoop_eq, hid]
    simp only [hcfg]
  · intro hlower
    rw [← hcanon]
    exact ToLower_idem _ hlower _
  · have hlangs : langs ≠ [] := by
      rw [hsplit]
      simp
    cases langs with
    | nil => exact absurd rfl hlangs
    | cons l ls => simp [mockDetectLanguage, hover, hcls]

/-- C1 at a concrete input: the classifier finds Rust, ÉLIXIR, then Go; the registry has
`élixir` and `go`, and the result is `élixir`. -/
theorem C1_first_supported_candidate_witness :
    (mockDetectLanguage elixirEnv ⟨"proj", ⟨""⟩⟩).1 = (some ⟨"élixir"⟩, "élixir", none) ∧
    ∃ cfg id, (mockDetectLanguage elixirEnv ⟨"proj", ⟨""⟩⟩).1 = (some cfg, id, none) ∧
      (elixirEnv.CreateLanguages "proj").GetConfig id = some cfg ∧
      id ≠ "" ∧
      (∃ before lang after, [rustLang, elixirLang, goLang] = before ++ lang :: after ∧
        (∀ l ∈ before,
          (elixirEnv.CreateLanguages "proj").ContainsLanguage
            (canonical elixirEnv.unicodeToLower elixirEnv.Alias l) = false) ∧
        id = ToLower elixirEnv.unicodeToLower (elixirEnv.Alias lang).Language ∧
        (elixirEnv.CreateLanguages "proj").ContainsLanguage id = true) ∧
      ((∀ c, elixirEnv.unicodeToLower (elixirEnv.unicodeToLower c) =
          elixirEnv.unicodeToLower c) →
        ToLower elixirEnv.unicodeToLower id = id) ∧
      (mockDetectLanguage elixirEnv ⟨"proj", ⟨""⟩⟩).2 =
        [Call.ProcessDir "proj", Call.CreateLanguages "proj"] :=
  ⟨by decide,
    C1_first_supported_candidate elixirEnv ⟨"proj", ⟨""⟩⟩ [rustLang, elixirLang, goLang]
      rfl rfl ⟨goLang, by decide, by decide⟩
      (by
        intro lang hlang
        have hcases : lang = "élixir" ∨ lang = "go" := by
          simpa [elixirEnv, elixirRegistry] using hlang
        rcases hcases with h | h <;> subst h <;> exact ⟨by decide, by decide⟩)⟩

/-- C1 as stated fails, in two ways. The override is empty, the classifier succeeds and
its only language canonicalizes to an identifier the registry supports; yet with a
registry that supports the empty identifier the resolver returns a profile with the
empty string as identifier, and with a registry that has no profile to give for `go` it
returns no error with a nil profile. -/
theorem C1_counterexample_empty_or_nil :
    (blankEnv.ProcessDir "proj" = ([blankLang], none) ∧
      (blankEnv.CreateLanguages "proj").ContainsLanguage (canonical blankEnv.unicodeToLower blankEnv.Alias blankLang)
        = true ∧
      (mockDetectLanguage blankEnv ⟨"proj", ⟨""⟩⟩).1 = (some ⟨"blank"⟩, "", none)) ∧
    (hollowEnv.ProcessDir "proj" = ([goLang], none) ∧
      (hollowEnv.CreateLanguages "proj").ContainsLanguage (canonical hollowEnv.unicodeToLower hollowEnv.Alias goLang)
        = true ∧
      (mockDetectLanguage hollowEnv ⟨"proj", ⟨""⟩⟩).1 = (none, "go", none)) := by
  decide

/-- C2. With a non-empty override whose lowercased form has no profile in the registry, the
resolver returns a nil profile, an empty identifier and `ErrNoLanguageDetected`; the only
call it makes is the construction of the registry, and the result is the same whatever
the classifier is. -/
theorem C2_unknown_override_fails (env : Env) (mcc : mockCreateCmd)
    (hover : mcc.createConfig.LanguageType ≠ "")
    (hreg : (env.CreateLanguages mcc.dest).GetConfig (ToLower env.unicodeToLower mcc.createConfig.LanguageType)
      = none) :
    mockDetectLanguage env mcc =
      ((none, "", some ErrNoLanguageDetected), [Call.CreateLanguages mcc.dest]) ∧
    Call.ProcessDir mcc.dest ∉ (mockDetectLanguage env mcc).2 ∧
    ∀ classifier : String → List Language × Option GoError,
      mockDetectLanguage ⟨classifier, env.Alias, env.CreateLanguages, env.unicodeToLower⟩ mcc =
        mockDetectLanguage env mcc := by
  have key : ∀ classifier : String → List Language × Option GoError,
      mockDetectLanguage ⟨classifier, env.Alias, env.CreateLanguages, env.unicodeToLower⟩ mcc =
        ((none, "", some ErrNoLanguageDetected), [Call.CreateLanguages mcc.dest]) := by
    intro classifier
    simp [mockDetectLanguage, hover, hreg]
  have here : mockDetectLanguage env mcc =
      ((none, "", some ErrNoLanguageDetected), [Call.CreateLanguages mcc.dest]) :=
    key env.ProcessDir
  refine ⟨here, ?_, ?_⟩
  · rw [here]
    simp
  · intro classifier
    rw [key classifier, here]

/-- C2 at a concrete input: the override `ÉLIXIR`, which lowers to `élixir`, against the
registry of `go` and `gomodule`, while the classifier would have found Go. -/
theorem C2_unknown_override_fails_witness :
    ToLower goEnv.unicodeToLower "ÉLIXIR" = "élixir" ∧
    mockDetectLanguage goEnv ⟨"proj", ⟨"ÉLIXIR"⟩⟩ =
      ((none, "", some ErrNoLanguageDetected), [Call.CreateLanguages "proj"]) ∧
    Call.ProcessDir "proj" ∉ (mockDetectLanguage goEnv ⟨"proj", ⟨"ÉLIXIR"⟩⟩).2 ∧
    ∀ classifier : String → List Language × Option GoError,
      mockDetectLanguage ⟨classifier, goEnv.Alias, goEnv.CreateLanguages, goEnv.unicodeToLower⟩
          ⟨"proj", ⟨"ÉLIXIR"⟩⟩ =
        mockDetectLanguage goEnv ⟨"proj", ⟨"ÉLIXIR"⟩⟩ :=
  ⟨by decide, C2_unknown_override_fails goEnv ⟨"proj", ⟨"ÉLIXIR"⟩⟩ (by decide) (by decide)⟩

/-- C3. With a non-empty override whose lowercased form has a profile in the registry, the
resolver returns that profile, the lowercased override and no error; the only call it
makes is the construction of the registry, and the result is the same whatever the
classifier is (also one that fails or finds nothing). -/
theorem C3_known_override_wins (env : Env) (mcc : mockCreateCmd) (cfg : DraftConfig)
    (hover : mcc.createConfig.LanguageType ≠ "")
    (hreg : (env.CreateLanguages mcc.dest).GetConfig (ToLower env.unicodeToLower mcc.createConfig.LanguageType)
      = some cfg) :
    mockDetectLanguage env mcc =
      ((some cfg, ToLower env.unicodeToLower mcc.createConfig.LanguageType, none),
        [Call.CreateLanguages mcc.dest]) ∧
    Call.ProcessDir mcc.dest ∉ (mockDetectLanguage env mcc).2 ∧
    ∀ classifier : String → List Language × Option GoError,
      mockDetectLanguage ⟨classifier, env.Alias, env.CreateLanguages, env.unicodeToLower⟩ mcc =
        mockDetectLanguage env mcc := by
  have key : ∀ classifier : String → List Language × Option GoError,
      mockDetectLanguage ⟨classifier, env.Alias, env.CreateLanguages, env.unicodeToLower⟩ mcc =
        ((some cfg, ToLower env.unicodeToLower mcc.createConfig.LanguageType, none),
          [Call.CreateLanguages mcc.dest]) := by
    intro classifier
    simp [mockDetectLanguage, hover, hreg]
  have here : mockDetectLanguage env mcc =
      ((some cfg, ToLower env.unicodeToLower mcc.createConfig.LanguageType, none),
        [Call.CreateLanguages mcc.dest]) :=
    key env.ProcessDir
  refine ⟨here, ?_, ?_⟩
  · rw [here]
    simp
  · intro classifier
    rw [key classifier, here]

/-- C3 at a concrete input: the override `ÉLIXIR` against the registry of `élixir` and
`go`; the identifier returned is `élixir`. -/
theorem C3_known_override_wins_witness :
    ToLower elixirEnv.unicodeToLower "ÉLIXIR" = "élixir" ∧
    mockDetectLanguage elixirEnv ⟨"proj", ⟨"ÉLIXIR"⟩⟩ =
      ((some ⟨"élixir"⟩, ToLower elixirEnv.unicodeToLower "ÉLIXIR", none),
        [Call.CreateLanguages "proj"]) ∧
    Call.ProcessDir "proj" ∉ (mockDetectLanguage elixirEnv ⟨"proj", ⟨"ÉLIXIR"⟩⟩).2 ∧
    ∀ classifier : String → List Language × Option GoError,
      mockDetectLanguage
          ⟨classifier, elixirEnv.Alias, elixirEnv.CreateLanguages, elixirEnv.unicodeToLower⟩
          ⟨"proj", ⟨"ÉLIXIR"⟩⟩ =
        mockDetectLanguage elixirEnv ⟨"proj", ⟨"ÉLIXIR"⟩⟩ :=
  ⟨by decide,
    C3_known_override_wins elixirEnv ⟨"proj", ⟨"ÉLIXIR"⟩⟩ ⟨"élixir"⟩ (by decide) (by decide)⟩

/-- C4. With an empty override and a classifier that succeeds, if no detected language has
a canonical identifier the registry supports (as when the classifier returns no language
at all), the resolver returns a nil profile, an empty identifier and
`ErrNoLanguageDetected`. -/
theorem C4_no_supported_candidate (env : Env) (mcc : mockCreateCmd) (langs : List Language)
    (hover : mcc.createConfig.LanguageType = "")
    (hcls : env.ProcessDir mcc.dest = (langs, none))
    (hnone : ∀ lang ∈ langs,
      (env.CreateLanguages mcc.dest).ContainsLanguage (canonical env.unicodeToLower env.Alias lang) = false) :
    (mockDetectLanguage env mcc).1 = (none, "", some ErrNoLanguageDetected) ∧
    (langs = [] → mockDetectLanguage env mcc =
      ((none, "", some ErrNoLanguageDetected), [Call.ProcessDir mcc.dest])) := by
  constructor
  · rw [mockDetectLanguage_detect env mcc langs hover hcls, detectLoop_eq,
      firstSupported_eq_none _ _ _ hnone]
  · intro hnil
    subst hnil
    simp [mockDetectLanguage, hover, hcls]

/-- C4 at a concrete input: the classifier finds only Rust, the registry has `go` and
`gomodule`. -/
theorem C4_no_supported_candidate_witness :
    (mockDetectLanguage rustEnv ⟨"proj", ⟨""⟩⟩).1 = (none, "", some ErrNoLanguageDetected) ∧
    ([rustLang] = [] → mockDetectLanguage rustEnv ⟨"proj", ⟨""⟩⟩ =
      ((none, "", some ErrNoLanguageDetected), [Call.ProcessDir "proj"])) :=
  C4_no_supported_candidate rustEnv ⟨"proj", ⟨""⟩⟩ [rustLang] rfl rfl (by decide)

/-- C5, as amended. With an empty override and a classifier that fails with the error `e`,
the resolver returns a nil profile, an empty identifier and an error that is not
`ErrNoLanguageDetected`, whose text is "there was an error detecting the language: "
followed by the text of `e`. Only the text of `e` is kept: the returned error has no
cause to unwrap. The classifier is the only call made. -/
theorem C5_classifier_error_text (env : Env) (mcc : mockCreateCmd) (langs : List Language)
    (e : GoError)
    (hover : mcc.createConfig.LanguageType = "")
    (hcls : env.ProcessDir mcc.dest = (langs, some e)) :
    ∃ err, mockDetectLanguage env mcc = ((none, "", some err), [Call.ProcessDir mcc.dest]) ∧
      err.Error = "there was an error detecting the language: " ++ e.Error ∧
      err ≠ ErrNoLanguageDetected ∧
      err.Unwrap = none ∧
      err.chain = [err] := by
  refine ⟨GoError.errorString ("there was an error detecting the language: " ++ e.Error),
    ?_, rfl, ?_, rfl, rfl⟩
  · simp [mockDetectLanguage, hover, hcls, Errorf]
  · intro h
    cases h

/-- C5 at a concrete input: the classifier fails with "permission denied". -/
theorem C5_classifier_error_text_witness :
    ∃ err, mockDetectLanguage failingEnv ⟨"proj", ⟨""⟩⟩ =
        ((none, "", some err), [Call.ProcessDir "proj"]) ∧
      err.Error = "there was an error detecting the language: " ++
        (GoError.errorString "permission denied").Error ∧
      err ≠ ErrNoLanguageDetected ∧
      err.Unwrap = none ∧
      err.chain = [err] :=
  C5_classifier_error_text failingEnv ⟨"proj", ⟨""⟩⟩ [] (GoError.errorString "permission denied")
    rfl rfl

/-- C5 as stated fails: the error returned for the classifier error "permission denied"
unwraps to nothing and `errors.Is` does not find the classifier error in it; a classifier
that fails with a different error of the same text gives the very same result, so the
classifier error cannot be recovered from what the resolver returns. -/
theorem C5_counterexample_error_not_wrapped :
    (mockDetectLanguage failingEnv ⟨"proj", ⟨""⟩⟩).1 =
      (none, "", some (GoError.errorString
        "there was an error detecting the language: permission denied")) ∧
    (GoError.errorString "there was an error detecting the language: permission denied").Unwrap
      = none ∧
    GoError.Is (GoError.errorString "there was an error detecting the language: permission denied")
      (GoError.errorString "permission denied") = false ∧
    (failingEnv.ProcessDir "proj").2 ≠ (failingEnvWrapped.ProcessDir "proj").2 ∧
    mockDetectLanguage failingEnv ⟨"proj", ⟨""⟩⟩ =
      mockDetectLanguage failingEnvWrapped ⟨"proj", ⟨""⟩⟩ := by
  decide

/-- C6, as amended. Let the registry return a profile for every identifier it reports as
supported, and not support the empty identifier. Then the resolver returns either an
error with a nil profile and an empty identifier, or no error with a non-nil profile and
a non-empty identifier. -/
theorem C6_all_or_nothing (env : Env) (mcc : mockCreateCmd)
    (hreg : ∀ lang, (env.CreateLanguages mcc.dest).ContainsLanguage lang = true →
      (env.CreateLanguages mcc.dest).GetConfig lang ≠ none ∧ lang ≠ "") :
    ((mockDetectLanguage env mcc).1.2.2 ≠ none ∧ (mockDetectLanguage env mcc).1.1 = none ∧
      (mockDetectLanguage env mcc).1.2.1 = "") ∨
    ((mockDetectLanguage env mcc).1.2.2 = none ∧ (mockDetectLanguage env mcc).1.1 ≠ none ∧
      (mockDetectLanguage env mcc).1.2.1 ≠ "") := by
  by_cases hover : mcc.createConfig.LanguageType = ""
  · rcases hcls : env.ProcessDir mcc.dest with ⟨langs, err⟩
    cases err with
    | some e =>
      left
      simp [mockDetectLanguage, hover, hcls]
    | none =>
      rw [mockDetectLanguage_detect env mcc langs hover hcls, detectLoop_eq]
      cases hfs : firstSupported env.unicodeToLower (env.CreateLanguages mcc.dest) env.Alias langs with
      | none =>
        left
        simp
      | some id =>
        right
        obtain ⟨_, _, _, _, _, _, hcont⟩ := firstSupported_split _ _ _ _ hfs
        obtain ⟨hprofile, hne⟩ := hreg id hcont
        exact ⟨rfl, hprofile, hne⟩
  · cases hcfg : (env.CreateLanguages mcc.dest).GetConfig
        (ToLower env.unicodeToLower mcc.createConfig.LanguageType) with
    | none =>
      left
      simp [mockDetectLanguage, hover, hcfg]
    | some cfg =>
      right
      have hres : (mockDetectLanguage env mcc).1 =
          (some cfg, ToLower env.unicodeToLower mcc.createConfig.LanguageType, none) := by
        simp [mockDetectLanguage, hover, hcfg]
      rw [hres]
      refine ⟨rfl, by simp, ?_⟩
      intro hempty
      exact absurd ((ToLower_eq_empty _ _).mp hempty) hover

/-- C6 at a concrete input: the registry of `go` and `gomodule`, the classifier finds
Rust, then Go. -/
theorem C6_all_or_nothing_witness :
    ((mockDetectLanguage goEnv ⟨"proj", ⟨""⟩⟩).1.2.2 ≠ none ∧
      (mockDetectLanguage goEnv ⟨"proj", ⟨""⟩⟩).1.1 = none ∧
      (mockDetectLanguage goEnv ⟨"proj", ⟨""⟩⟩).1.2.1 = "") ∨
    ((mockDetectLanguage goEnv ⟨"proj", ⟨""⟩⟩).1.2.2 = none ∧
      (mockDetectLanguage goEnv ⟨"proj", ⟨""⟩⟩).1.1 ≠ none ∧
      (mockDetectLanguage goEnv ⟨"proj", ⟨""⟩⟩).1.2.1 ≠ "") :=
  C6_all_or_nothing goEnv ⟨"proj", ⟨""⟩⟩
    (by
      intro lang hlang
      have hcases : lang = "go" ∨ lang = "gomodule" := by
        simpa [goEnv, goRegistry] using hlang
      rcases hcases with h | h <;> subst h <;> exact ⟨by decide, by decide⟩)

/-- C6 as stated fails, in two ways: with a registry that reports `go` as supported and
has no profile for it the resolver returns no error, a nil profile and the identifier
`go`; with a classifier that finds a language with an empty name and a registry that
supports the empty identifier it returns no error, a profile and an empty identifier. -/
theorem C6_counterexample_partial_success :
    ((mockDetectLanguage hollowEnv ⟨"./..", ⟨""⟩⟩).1.2.2 = none ∧
      (mockDetectLanguage hollowEnv ⟨"./..", ⟨""⟩⟩).1.1 = none ∧
      (mockDetectLanguage hollowEnv ⟨"./..", ⟨""⟩⟩).1.2.1 = "go") ∧
    ((mockDetectLanguage blankEnv ⟨"./..", ⟨""⟩⟩).1.2.2 = none ∧
      (mockDetectLanguage blankEnv ⟨"./..", ⟨""⟩⟩).1.1 ≠ none ∧
      (mockDetectLanguage blankEnv ⟨"./..", ⟨""⟩⟩).1.2.1 = "") := by
  decide

/-- C7. With an empty override and a classifier that succeeds, when the first supported
candidate canonicalizes to `go` the resolver returns the identifier `go` with what the
registry gives for `go`, and never `gomodule` nor its profile: both flags of the
substitution are false. -/
theorem C7_go_is_not_gomodule (env : Env) (mcc : mockCreateCmd) (langs : List Language)
    (hover : mcc.createConfig.LanguageType = "")
    (hcls : env.ProcessDir mcc.dest = (langs, none))
    (hgo : firstSupported env.unicodeToLower (env.CreateLanguages mcc.dest) env.Alias langs = some "go") :
    (mockDetectLanguage env mcc).1 =
      ((env.CreateLanguages mcc.dest).GetConfig "go", "go", none) ∧
    (mockDetectLanguage env mcc).1.2.1 ≠ "gomodule" := by
  have hres : (mockDetectLanguage env mcc).1 =
      ((env.CreateLanguages mcc.dest).GetConfig "go", "go", none) := by
    rw [mockDetectLanguage_detect env mcc langs hover hcls, detectLoop_eq, hgo]
  refine ⟨hres, ?_⟩
  rw [hres]
  show "go" ≠ "gomodule"
  decide

/-- C7 at the input of the spec: the classifier returns `{Go, 92.0}` and the registry
supports `go` and `gomodule`, with different profiles. -/
theorem C7_go_is_not_gomodule_witness :
    (goRegistry.ContainsLanguage "gomodule" = true ∧
      goRegistry.GetConfig "gomodule" ≠ goRegistry.GetConfig "go" ∧
      goRegistry.GetConfig "go" = some ⟨"go"⟩) ∧
    (mockDetectLanguage onlyGoEnv ⟨"proj", ⟨""⟩⟩).1 =
      ((onlyGoEnv.CreateLanguages "proj").GetConfig "go", "go", none) ∧
    (mockDetectLanguage onlyGoEnv ⟨"proj", ⟨""⟩⟩).1.2.1 ≠ "gomodule" :=
  ⟨by decide, C7_go_is_not_gomodule onlyGoEnv ⟨"proj", ⟨""⟩⟩ [goLang] rfl rfl (by decide)⟩

/-! ## Manifest discovery and validation: claims C8 to C10 -/

/-- C8. When the root of the walk opens in the view and no directory below it fails to be
read, `getManifests` returns no error and exactly the paths of the non-directory entries
of the subtree, in the order of the walk (depth first, each directory in the order of its
listing): the visited entries with the directories filtered out. A tree with N files
yields N paths whatever its number of directories, and every view that shows the same
tree under the root yields the same list. -/
theorem C8_getManifests_returns_files (f : FS) (root : String) (t : Node)
    (hstat : f.Stat root = .ok t) (hok : walkFailure f root = none) :
    getManifests f root = (t.files root, none) ∧
    (getManifests f root).1 =
      ((t.visited root).filter (fun entry => !entry.2)).map Prod.fst ∧
    (getManifests f root).1.length = t.countFiles ∧
    (t.visited root).length = t.countFiles + t.countDirs ∧
    ∀ g : FS, g.Stat root = .ok t → getManifests g root = getManifests f root := by
  have hok1 : t.firstFailure root = none := by
    simpa [walkFailure, hstat] using hok
  have hres := getManifests_ok f root t hstat hok1
  refine ⟨hres, ?_, ?_, (Node.length_files root t).2, ?_⟩
  · rw [hres]
    exact Node.files_eq_visited root t
  · rw [hres]
    exact (Node.length_files root t).1
  · intro g hg
    rw [hres, getManifests_ok g root t hg hok1]

/-- C8 at a concrete input: a directory with three files, one of them in a subdirectory,
and three directories. -/
theorem C8_getManifests_returns_files_witness :
    getManifests manifestsFS "." = (manifestsTree.files ".", none) ∧
    (getManifests manifestsFS ".").1 =
      ((manifestsTree.visited ".").filter (fun entry => !entry.2)).map Prod.fst ∧
    (getManifests manifestsFS ".").1.length = manifestsTree.countFiles ∧
    (manifestsTree.visited ".").length = manifestsTree.countFiles + manifestsTree.countDirs ∧
    ∀ g : FS, g.Stat "." = .ok manifestsTree →
      getManifests g "." = getManifests manifestsFS "." :=
  C8_getManifests_returns_files manifestsFS "." manifestsTree rfl (by decide)

/-- C9. When the walk meets an error, at the root or at a directory below it, `getManifests`
returns the nil list and an error that wraps the error of the walk twice (`errors.Is`
finds it) and whose text names the path where it occurred. -/
theorem C9_getManifests_walk_error (f : FS) (root p : String) (e : GoError)
    (hfail : walkFailure f root = some (p, e)) :
    getManifests f root =
      ([], some (ErrorfW "could not walk directory: "
        (ErrorfW ("error walking path " ++ p ++ " with error: ") e))) ∧
    (ErrorfW "could not walk directory: "
      (ErrorfW ("error walking path " ++ p ++ " with error: ") e)).Is e = true ∧
    (ErrorfW "could not walk directory: "
      (ErrorfW ("error walking path " ++ p ++ " with error: ") e)).Unwrap.bind GoError.Unwrap
        = some e ∧
    (ErrorfW "could not walk directory: "
      (ErrorfW ("error walking path " ++ p ++ " with error: ") e)).Error =
      "could not walk directory: " ++ (("error walking path " ++ p ++ " with error: ")
        ++ e.Error) := by
  refine ⟨?_, ?_, rfl, rfl⟩
  · cases hstat : f.Stat root with
    | error err =>
      simp only [walkFailure, hstat, Option.some.injEq, Prod.mk.injEq] at hfail
      obtain ⟨hp, he⟩ := hfail
      subst hp he
      simp [getManifests, WalkDir, hstat, getManifestsFunc, ErrorfW, SkipDir, SkipAll]
    | ok t =>
      simp only [walkFailure, hstat] at hfail
      obtain ⟨acc1, hacc⟩ := (walkDir_getManifestsFunc root t []).2 p e hfail
      simp [getManifests, WalkDir, hstat, hacc, ErrorfW, SkipDir, SkipAll]
  · simp only [GoError.Is, ErrorfW, GoError.chain, decide_eq_true_eq]
    exact List.mem_cons_of_mem _ (List.mem_cons_of_mem _ (GoError.mem_chain_self e))

/-- C9 at a concrete input: the listing of `base` fails after the file `a.yaml` was
visited, and the file is not returned. -/
theorem C9_getManifests_walk_error_witness :
    getManifests brokenFS "." =
      ([], some (ErrorfW "could not walk directory: "
        (ErrorfW ("error walking path " ++ "base" ++ " with error: ")
          (GoError.errorString "permission denied")))) ∧
    (ErrorfW "could not walk directory: "
      (ErrorfW ("error walking path " ++ "base" ++ " with error: ")
        (GoError.errorString "permission denied"))).Is
          (GoError.errorString "permission denied") = true ∧
    (ErrorfW "could not walk directory: "
      (ErrorfW ("error walking path " ++ "base" ++ " with error: ")
        (GoError.errorString "permission denied"))).Unwrap.bind GoError.Unwrap
        = some (GoError.errorString "permission denied") ∧
    (ErrorfW "could not walk directory: "
      (ErrorfW ("error walking path " ++ "base" ++ " with error: ")
        (GoError.errorString "permission denied"))).Error =
      "could not walk directory: " ++ (("error walking path " ++ "base" ++ " with error: ")
        ++ (GoError.errorString "permission denied").Error) :=
  C9_getManifests_walk_error brokenFS "." "base" (GoError.errorString "permission denied")
    (by decide)

/-- C10. With an empty `manifestPath`, `run` returns the error "path to the manifests
cannot be empty" and makes no call at all: no stat, no walk, no rule engine. -/
theorem C10_run_rejects_empty_path (w : World) (vc : validateCmd)
    (hempty : vc.manifestPath = "") :
    validateCmd.run w vc =
      (some (GoError.errorString "path to the manifests cannot be empty"), []) := by
  simp [validateCmd.run, hempty, Errorf]

/-- C10 at a concrete input: the zero value of `validateCmd`, as `newValidateCmd` builds it
when the flag is not given. -/
theorem C10_run_rejects_empty_path_witness :
    validateCmd.run manifestsWorld ⟨false, ""⟩ =
      (some (GoError.errorString "path to the manifests cannot be empty"), []) :=
  C10_run_rejects_empty_path manifestsWorld ⟨false, ""⟩ rfl

/-! ## Lemmas on `validateCmd.run` -/

/-- The path is not empty and `os.Stat` fails: `run` returns the wrapped error after the
one call. -/
theorem run_stat_error (w : World) (vc : validateCmd) (e : GoError)
    (hne : vc.manifestPath ≠ "") (hstat : w.Stat vc.manifestPath = .error e) :
    validateCmd.run w vc =
      (some (ErrorfW "could not determine if given path is a directory: " e),
        [Call.Stat vc.manifestPath]) := by
  simp [validateCmd.run, hne, isDirectory, hstat]

/-- The path names a file: `run` hands the one-element list to the rule engine and returns
what the rule engine returns. -/
theorem run_file (w : World) (vc : validateCmd) (t : Node)
    (hne : vc.manifestPath ≠ "") (hstat : w.Stat vc.manifestPath = .ok t)
    (hfile : t.IsDir = false) :
    validateCmd.run w vc =
      (w.ValidateManifests vc.manifestPath [vc.manifestPath],
        [Call.Stat vc.manifestPath,
          Call.ValidateManifests vc.manifestPath [vc.manifestPath]]) := by
  cases hengine : w.ValidateManifests vc.manifestPath [vc.manifestPath] <;>
    simp [validateCmd.run, validateCmd.branch, hne, isDirectory, hstat, hfile, hengine]

/-- The path names a directory and the walk fails: `run` returns the error of
`getManifests` as it is. -/
theorem run_dir_walk_error (w : World) (vc : validateCmd) (t : Node) (ms : List String)
    (e : GoError)
    (hne : vc.manifestPath ≠ "") (hstat : w.Stat vc.manifestPath = .ok t)
    (hdir : t.IsDir = true)
    (hwalk : getManifests (DirFS w vc.manifestPath) vc.manifestPath = (ms, some e)) :
    validateCmd.run w vc =
      (some e, [Call.Stat vc.manifestPath, Call.WalkDir vc.manifestPath vc.manifestPath]) := by
  simp [validateCmd.run, validateCmd.branch, hne, isDirectory, hstat, hdir, hwalk]

/-- The path names a directory and the walk succeeds: `run` hands the list of the walk
to the rule engine and returns what the rule engine returns. -/
theorem run_dir_walk_ok (w : World) (vc : validateCmd) (t : Node) (ms : List String)
    (hne : vc.manifestPath ≠ "") (hstat : w.Stat vc.manifestPath = .ok t)
    (hdir : t.IsDir = true)
    (hwalk : getManifests (DirFS w vc.manifestPath) vc.manifestPath = (ms, none)) :
    validateCmd.run w vc =
      (w.ValidateManifests vc.manifestPath ms,
        [Call.Stat vc.manifestPath, Call.WalkDir vc.manifestPath vc.manifestPath,
          Call.ValidateManifests vc.manifestPath ms]) := by
  cases hengine : w.ValidateManifests vc.manifestPath ms <;>
    simp [validateCmd.run, validateCmd.branch, hne, isDirectory, hstat, hdir, hwalk, hengine]

/-! ## Validation: claims C11 to C14 -/

/-- C11. For a non-empty `manifestPath` that `os.Stat` reports as an existing entry that
is not a directory, `run` makes two calls: the stat, and one call of the rule engine with
the view of `manifestPath` and the one-element list `[manifestPath]`. No walk is made, and
`run` returns what the rule engine returns. -/
theorem C11_single_file_manifest_set (w : World) (vc : validateCmd) (t : Node)
    (hne : vc.manifestPath ≠ "") (hstat : w.Stat vc.manifestPath = .ok t)
    (hfile : t.IsDir = false) :
    (validateCmd.run w vc).2 =
      [Call.Stat vc.manifestPath, Call.ValidateManifests vc.manifestPath [vc.manifestPath]] ∧
    ruleEngineCalls (validateCmd.run w vc).2 = 1 ∧
    Call.WalkDir vc.manifestPath vc.manifestPath ∉ (validateCmd.run w vc).2 ∧
    (validateCmd.run w vc).1 = w.ValidateManifests vc.manifestPath [vc.manifestPath] := by
  rw [run_file w vc t hne hstat hfile]
  refine ⟨rfl, ?_, ?_, rfl⟩
  · simp [ruleEngineCalls]
  · simp

/-- C11 at a concrete input: the file `pod.yaml` of the current directory. -/
theorem C11_single_file_manifest_set_witness :
    (validateCmd.run plainWorld ⟨false, "pod.yaml"⟩).2 =
      [Call.Stat "pod.yaml", Call.ValidateManifests "pod.yaml" ["pod.yaml"]] ∧
    ruleEngineCalls (validateCmd.run plainWorld ⟨false, "pod.yaml"⟩).2 = 1 ∧
    Call.WalkDir "pod.yaml" "pod.yaml" ∉ (validateCmd.run plainWorld ⟨false, "pod.yaml"⟩).2 ∧
    (validateCmd.run plainWorld ⟨false, "pod.yaml"⟩).1 =
      plainWorld.ValidateManifests "pod.yaml" ["pod.yaml"] :=
  C11_single_file_manifest_set plainWorld ⟨false, "pod.yaml"⟩ (.file "pod.yaml")
    (by decide) rfl rfl

/-- C12. Whenever `run` reaches the rule engine, with whatever view and manifest list, it
returns exactly what the rule engine returns for them: the error itself, not wrapped, or
no error. -/
theorem C12_rule_engine_result_unchanged (w : World) (vc : validateCmd) (fsRoot : String)
    (ms : List String)
    (hreach : Call.ValidateManifests fsRoot ms ∈ (validateCmd.run w vc).2) :
    (validateCmd.run w vc).1 = w.ValidateManifests fsRoot ms ∧
    (∀ e, w.ValidateManifests fsRoot ms = some e → (validateCmd.run w vc).1 = some e) ∧
    (w.ValidateManifests fsRoot ms = none → (validateCmd.run w vc).1 = none) := by
  have key : (validateCmd.run w vc).1 = w.ValidateManifests fsRoot ms := by
    by_cases hne : vc.manifestPath = ""
    · simp [validateCmd.run, hne] at hreach
    · cases hstat : w.Stat vc.manifestPath with
      | error e =>
        rw [run_stat_error w vc e hne hstat] at hreach
        simp at hreach
      | ok t =>
        cases hdir : t.IsDir with
        | false =>
          rw [run_file w vc t hne hstat hdir] at hreach ⊢
          simp at hreach
          obtain ⟨hroot, hms⟩ := hreach
          rw [hroot, hms]
        | true =>
          rcases hwalk : getManifests (DirFS w vc.manifestPath) vc.manifestPath with ⟨ms1, err⟩
          cases err with
          | some e =>
            rw [run_dir_walk_error w vc t ms1 e hne hstat hdir hwalk] at hreach
            simp at hreach
          | none =>
            rw [run_dir_walk_ok w vc t ms1 hne hstat hdir hwalk] at hreach ⊢
            simp at hreach
            obtain ⟨hroot, hms⟩ := hreach
            rw [hroot, hms]
  refine ⟨key, ?_, ?_⟩
  · intro e he
    rw [key, he]
  · intro hnone
    rw [key, hnone]

/-- C12 at a concrete input: the rule engine rejects the file `pod.yaml`, and `run`
returns that error. -/
theorem C12_rule_engine_result_unchanged_witness :
    (validateCmd.run plainWorld ⟨false, "pod.yaml"⟩).1 =
      plainWorld.ValidateManifests "pod.yaml" ["pod.yaml"] ∧
    (∀ e, plainWorld.ValidateManifests "pod.yaml" ["pod.yaml"] = some e →
      (validateCmd.run plainWorld ⟨false, "pod.yaml"⟩).1 = some e) ∧
    (plainWorld.ValidateManifests "pod.yaml" ["pod.yaml"] = none →
      (validateCmd.run plainWorld ⟨false, "pod.yaml"⟩).1 = none) :=
  C12_rule_engine_result_unchanged plainWorld ⟨false, "pod.yaml"⟩ "pod.yaml" ["pod.yaml"]
    (by decide)

/-- C13. For a non-empty `manifestPath` on which `os.Stat` fails with the error `e`, `run`
returns an error that wraps `e` (`Unwrap` gives it back), and the stat is the only call:
no walk, no rule engine. -/
theorem C13_stat_error_wrapped (w : World) (vc : validateCmd) (e : GoError)
    (hne : vc.manifestPath ≠ "") (hstat : w.Stat vc.manifestPath = .error e) :
    isDirectory w vc.manifestPath = (false, some e) ∧
    validateCmd.run w vc =
      (some (ErrorfW "could not determine if given path is a directory: " e),
        [Call.Stat vc.manifestPath]) ∧
    (ErrorfW "could not determine if given path is a directory: " e).Unwrap = some e ∧
    (ErrorfW "could not determine if given path is a directory: " e).Is e = true ∧
    ruleEngineCalls (validateCmd.run w vc).2 = 0 ∧
    Call.WalkDir vc.manifestPath vc.manifestPath ∉ (validateCmd.run w vc).2 := by
  rw [run_stat_error w vc e hne hstat]
  refine ⟨by simp [isDirectory, hstat], rfl, rfl, ?_, by simp [ruleEngineCalls], by simp⟩
  simp only [GoError.Is, ErrorfW, GoError.chain, decide_eq_true_eq]
  exact List.mem_cons_of_mem _ (GoError.mem_chain_self e)

/-- C13 at a concrete input: a path that does not exist. -/
theorem C13_stat_error_wrapped_witness :
    isDirectory plainWorld "missing" =
      (false, some (PathError "stat" "missing" ENOENT)) ∧
    validateCmd.run plainWorld ⟨false, "missing"⟩ =
      (some (ErrorfW "could not determine if given path is a directory: "
        (PathError "stat" "missing" ENOENT)), [Call.Stat "missing"]) ∧
    (ErrorfW "could not determine if given path is a directory: "
      (PathError "stat" "missing" ENOENT)).Unwrap =
        some (PathError "stat" "missing" ENOENT) ∧
    (ErrorfW "could not determine if given path is a directory: "
      (PathError "stat" "missing" ENOENT)).Is (PathError "stat" "missing" ENOENT)
        = true ∧
    ruleEngineCalls (validateCmd.run plainWorld ⟨false, "missing"⟩).2 = 0 ∧
    Call.WalkDir "missing" "missing" ∉ (validateCmd.run plainWorld ⟨false, "missing"⟩).2 :=
  C13_stat_error_wrapped plainWorld ⟨false, "missing"⟩ (PathError "stat" "missing" ENOENT)
    (by decide) rfl

/-- When `getManifests` succeeds, the root opened in the view and the list is the files
of the entry found there. -/
theorem getManifests_ok_inv (f : FS) (root : String) (ms : List String)
    (h : getManifests f root = (ms, none)) :
    ∃ t, f.Stat root = .ok t ∧ ms = t.files root := by
  cases hstat : f.Stat root with
  | error err =>
    simp [getManifests, WalkDir, hstat, getManifestsFunc, ErrorfW, SkipDir, SkipAll] at h
  | ok t =>
    refine ⟨t, rfl, ?_⟩
    cases hfail : t.firstFailure root with
    | none =>
      rw [getManifests_ok f root t hstat hfail] at h
      exact (congrArg Prod.fst h).symm
    | some failure =>
      obtain ⟨p, e⟩ := failure
      obtain ⟨acc1, hacc⟩ := (walkDir_getManifestsFunc root t []).2 p e hfail
      simp [getManifests, WalkDir, hstat, hacc, ErrorfW, SkipDir, SkipAll] at h

/-- A name opens in the view `os.DirFS(dir)` only when `dir` is not empty, the name is a
valid path and `os.Stat` finds `dir/name`. -/
theorem DirFS_Stat_ok (w : World) (dir name : String) (t : Node)
    (h : (DirFS w dir).Stat name = .ok t) :
    dir ≠ "" ∧ ValidPath name = true ∧ w.Stat (dir ++ "/" ++ name) = .ok t := by
  simp only [DirFS] at h
  by_cases hdir : dir = ""
  · simp [hdir] at h
  · rw [if_neg hdir] at h
    by_cases hvalid : ValidPath name = false
    · simp [hvalid] at h
    · rw [if_neg hvalid] at h
      refine ⟨hdir, by simpa using hvalid, ?_⟩
      cases hstat : w.Stat (dir ++ "/" ++ name) with
      | error err =>
        rw [hstat] at h
        cases err <;> simp at h
      | ok info =>
        rw [hstat] at h
        simpa using h

/-- In every world, the manifest list that `run` hands to the rule engine for a directory
`manifestPath` is the files of the entry at `manifestPath/manifestPath`, under paths that
start with `manifestPath`: the walk starts one level below the directory given. -/
theorem run_dir_walks_below (w : World) (vc : validateCmd) (t : Node) (ms : List String)
    (hne : vc.manifestPath ≠ "") (hstat : w.Stat vc.manifestPath = .ok t)
    (hdir : t.IsDir = true)
    (hreach : Call.ValidateManifests vc.manifestPath ms ∈ (validateCmd.run w vc).2) :
    ValidPath vc.manifestPath = true ∧
    ∃ below, w.Stat (vc.manifestPath ++ "/" ++ vc.manifestPath) = .ok below ∧
      ms = below.files vc.manifestPath := by
  rcases hwalk : getManifests (DirFS w vc.manifestPath) vc.manifestPath with ⟨ms1, err⟩
  cases err with
  | some e =>
    rw [run_dir_walk_error w vc t ms1 e hne hstat hdir hwalk] at hreach
    simp at hreach
  | none =>
    rw [run_dir_walk_ok w vc t ms1 hne hstat hdir hwalk] at hreach
    simp at hreach
    subst hreach
    obtain ⟨below, hbelow, hms⟩ := getManifests_ok_inv _ _ _ hwalk
    obtain ⟨_, hvalid, hbelow1⟩ := DirFS_Stat_ok w _ _ below hbelow
    exact ⟨hvalid, below, hbelow1, hms⟩

/-- C14 on the code. `run` walks the root `manifestPath` inside the view that is already
rooted at `manifestPath`, so the walk starts at `manifestPath/manifestPath`. For the
directory `manifests` with three files the walk fails and the rule engine is never
called, while the walk of `.` in the same view lists the three files. Where `manifests`
holds `a.yaml` and a second directory `manifests` with `b.yaml`, the rule engine
receives `manifests/b.yaml` alone: the file `a.yaml` under `manifestPath` is missing. -/
theorem C14_walk_starts_below_the_view :
    (isDirectory plainWorld "manifests" = (true, none) ∧
      validateCmd.run plainWorld ⟨false, "manifests"⟩ =
        (some (ErrorfW "could not walk directory: "
          (ErrorfW "error walking path manifests with error: "
            (PathError "stat" "manifests" ENOENT))),
          [Call.Stat "manifests", Call.WalkDir "manifests" "manifests"]) ∧
      ruleEngineCalls (validateCmd.run plainWorld ⟨false, "manifests"⟩).2 = 0 ∧
      getManifests (DirFS plainWorld "manifests") "." =
        (["a.yaml", "base/c.yaml", "d.yaml"], none)) ∧
    (isDirectory nestedWorld "manifests" = (true, none) ∧
      validateCmd.run nestedWorld ⟨false, "manifests"⟩ =
        (none, [Call.Stat "manifests", Call.WalkDir "manifests" "manifests",
          Call.ValidateManifests "manifests" ["manifests/b.yaml"]]) ∧
      getManifests (DirFS nestedWorld "manifests") "." =
        (["a.yaml", "manifests/b.yaml"], none)) := by
  decide

/-! ## The order of the candidates: claims C15 and C16 -/

/-- Unsupported candidates at the head of the list do not change the first supported one. -/
theorem firstSupported_append_unsupported {lower : Char → Char} (reg : Languages) (al : Language → Language)
    (pre langs : List Language)
    (hpre : ∀ l ∈ pre, reg.ContainsLanguage (canonical lower al l) = false) :
    firstSupported lower reg al (pre ++ langs) = firstSupported lower reg al langs := by
  induction pre with
  | nil => rfl
  | cons l pre ih =>
    rw [List.cons_append, firstSupported_cons, hpre l (List.mem_cons_self _ _)]
    simpa using ih (fun x hx => hpre x (List.mem_cons_of_mem _ hx))

/-- A supported candidate after unsupported ones is the first supported one, whatever
follows it. -/
theorem firstSupported_append_supported {lower : Char → Char} (reg : Languages) (al : Language → Language)
    (before after : List Language) (lang : Language)
    (hbefore : ∀ l ∈ before, reg.ContainsLanguage (canonical lower al l) = false)
    (hsup : reg.ContainsLanguage (canonical lower al lang) = true) :
    firstSupported lower reg al (before ++ lang :: after) = some (canonical lower al lang) := by
  rw [firstSupported_append_unsupported reg al before _ hbefore, firstSupported_cons,
    if_pos hsup]

/-- C15. With an empty override and a classifier that succeeds, putting any number of
candidates whose canonical identifiers the registry does not support in front of the
detected languages leaves the profile, the identifier and the error of the resolver
unchanged. -/
theorem C15_unsupported_candidates_skipped (env env2 : Env) (mcc : mockCreateCmd)
    (pre langs : List Language)
    (hover : mcc.createConfig.LanguageType = "")
    (hcls : env.ProcessDir mcc.dest = (langs, none))
    (hcls2 : env2.ProcessDir mcc.dest = (pre ++ langs, none))
    (halias : env2.Alias = env.Alias)
    (hreg : env2.CreateLanguages = env.CreateLanguages)
    (hlower : env2.unicodeToLower = env.unicodeToLower)
    (hpre : ∀ l ∈ pre,
      (env.CreateLanguages mcc.dest).ContainsLanguage (canonical env.unicodeToLower env.Alias l) = false) :
    (mockDetectLanguage env2 mcc).1 = (mockDetectLanguage env mcc).1 := by
  rw [mockDetectLanguage_detect env2 mcc (pre ++ langs) hover hcls2,
    mockDetectLanguage_detect env mcc langs hover hcls, detectLoop_eq, detectLoop_eq,
    halias, hreg, hlower, firstSupported_append_unsupported _ _ pre langs hpre]

/-- C15 at a concrete input: Rust in front of Go, against Go alone. -/
theorem C15_unsupported_candidates_skipped_witness :
    (mockDetectLanguage goEnv ⟨"proj", ⟨""⟩⟩).1 =
      (mockDetectLanguage onlyGoEnv ⟨"proj", ⟨""⟩⟩).1 :=
  C15_unsupported_candidates_skipped onlyGoEnv goEnv ⟨"proj", ⟨""⟩⟩ [rustLang] [goLang]
    rfl rfl rfl rfl rfl rfl (by decide)

/-- C16. With an empty override and a classifier that succeeds, the result of the resolver
is decided by the candidates up to and including the first supported one: whatever list
follows it, the resolver returns the registry profile and the canonical identifier of
that candidate, and no error. -/
theorem C16_later_candidates_ignored (env env2 : Env) (mcc : mockCreateCmd)
    (before after after2 : List Language) (lang : Language)
    (hover : mcc.createConfig.LanguageType = "")
    (hcls : env.ProcessDir mcc.dest = (before ++ lang :: after, none))
    (hcls2 : env2.ProcessDir mcc.dest = (before ++ lang :: after2, none))
    (halias : env2.Alias = env.Alias)
    (hreg : env2.CreateLanguages = env.CreateLanguages)
    (hlower : env2.unicodeToLower = env.unicodeToLower)
    (hbefore : ∀ l ∈ before,
      (env.CreateLanguages mcc.dest).ContainsLanguage (canonical env.unicodeToLower env.Alias l) = false)
    (hsup : (env.CreateLanguages mcc.dest).ContainsLanguage (canonical env.unicodeToLower env.Alias lang) = true) :
    (mockDetectLanguage env2 mcc).1 = (mockDetectLanguage env mcc).1 ∧
    (mockDetectLanguage env mcc).1 =
      ((env.CreateLanguages mcc.dest).GetConfig (canonical env.unicodeToLower env.Alias lang),
        canonical env.unicodeToLower env.Alias lang, none) := by
  have h1 : (mockDetectLanguage env mcc).1 =
      ((env.CreateLanguages mcc.dest).GetConfig (canonical env.unicodeToLower env.Alias lang),
        canonical env.unicodeToLower env.Alias lang, none) := by
    rw [mockDetectLanguage_detect env mcc _ hover hcls, detectLoop_eq,
      firstSupported_append_supported _ _ before after lang hbefore hsup]
  have h2 : (mockDetectLanguage env2 mcc).1 =
      ((env.CreateLanguages mcc.dest).GetConfig (canonical env.unicodeToLower env.Alias lang),
        canonical env.unicodeToLower env.Alias lang, none) := by
    rw [mockDetectLanguage_detect env2 mcc _ hover hcls2, detectLoop_eq, halias, hreg, hlower,
      firstSupported_append_supported _ _ before after2 lang hbefore hsup]
  exact ⟨h2.trans h1.symm, h1⟩

/-- C16 at a concrete input: after Rust and Go, nothing, against Rust and a language with
an empty name. -/
theorem C16_later_candidates_ignored_witness :
    (mockDetectLanguage goTailEnv ⟨"proj", ⟨""⟩⟩).1 =
      (mockDetectLanguage goEnv ⟨"proj", ⟨""⟩⟩).1 ∧
    (mockDetectLanguage goEnv ⟨"proj", ⟨""⟩⟩).1 =
      ((goEnv.CreateLanguages "proj").GetConfig (canonical goEnv.unicodeToLower goEnv.Alias goLang),
        canonical goEnv.unicodeToLower goEnv.Alias goLang, none) :=
  C16_later_candidates_ignored goEnv goTailEnv ⟨"proj", ⟨""⟩⟩ [rustLang] []
    [rustLang, blankLang] goLang rfl rfl rfl rfl rfl rfl (by decide) (by decide)

/-! ## The pipeline of `run`: claims C17 and C18 -/

/-- An error that `fmt.Errorf` builds from a text that starts with the letter c is not one
built from the text "reading directory: ". -/
theorem ErrorfW_ne_reading_directory (text : String) (e1 e : GoError)
    (hc : text.data.head? = some 'c') :
    ErrorfW text e1 ≠ ErrorfW "reading directory: " e := by
  intro h
  simp only [ErrorfW, GoError.wrapError.injEq] at h
  have hdata := congrArg (fun s : String => s.data.head?) h.1
  simp only [String.data_append] at hdata
  cases htext : text.data with
  | nil => simp [htext] at hc
  | cons c cs =>
    rw [htext] at hc hdata
    simp only [List.head?_cons, Option.some.injEq] at hc
    subst hc
    simp only [List.cons_append, List.head?_cons, Option.some.injEq] at hdata
    exact absurd hdata (by decide)

/-- C17. `run` calls the rule engine at most once. It calls it exactly once when
`manifestPath` is not empty, the stat succeeds and, for a directory, `getManifests`
succeeds. It does not call it when `manifestPath` is empty, when the stat fails or when
`getManifests` fails, and then returns the error of that stage: the invalid-input error,
the wrapped error of the stat, the error of `getManifests` as it is. -/
theorem C17_rule_engine_at_most_once (w : World) (vc : validateCmd) :
    ruleEngineCalls (validateCmd.run w vc).2 ≤ 1 ∧
    (vc.manifestPath = "" →
      ruleEngineCalls (validateCmd.run w vc).2 = 0 ∧
      (validateCmd.run w vc).1 = some (Errorf "path to the manifests cannot be empty")) ∧
    (∀ e, vc.manifestPath ≠ "" → w.Stat vc.manifestPath = .error e →
      ruleEngineCalls (validateCmd.run w vc).2 = 0 ∧
      (validateCmd.run w vc).1 =
        some (ErrorfW "could not determine if given path is a directory: " e)) ∧
    (∀ t ms e, vc.manifestPath ≠ "" → w.Stat vc.manifestPath = .ok t → t.IsDir = true →
      getManifests (DirFS w vc.manifestPath) vc.manifestPath = (ms, some e) →
      ruleEngineCalls (validateCmd.run w vc).2 = 0 ∧ (validateCmd.run w vc).1 = some e) ∧
    (∀ t ms, vc.manifestPath ≠ "" → w.Stat vc.manifestPath = .ok t → t.IsDir = true →
      getManifests (DirFS w vc.manifestPath) vc.manifestPath = (ms, none) →
      ruleEngineCalls (validateCmd.run w vc).2 = 1) ∧
    (∀ t, vc.manifestPath ≠ "" → w.Stat vc.manifestPath = .ok t → t.IsDir = false →
      ruleEngineCalls (validateCmd.run w vc).2 = 1) := by
  have hempty : vc.manifestPath = "" →
      ruleEngineCalls (validateCmd.run w vc).2 = 0 ∧
      (validateCmd.run w vc).1 = some (Errorf "path to the manifests cannot be empty") := by
    intro h
    simp [validateCmd.run, h, ruleEngineCalls]
  have hstatErr : ∀ e, vc.manifestPath ≠ "" → w.Stat vc.manifestPath = .error e →
      ruleEngineCalls (validateCmd.run w vc).2 = 0 ∧
      (validateCmd.run w vc).1 =
        some (ErrorfW "could not determine if given path is a directory: " e) := by
    intro e hne hstat
    rw [run_stat_error w vc e hne hstat]
    simp [ruleEngineCalls]
  have hwalkErr : ∀ t ms e, vc.manifestPath ≠ "" → w.Stat vc.manifestPath = .ok t →
      t.IsDir = true →
      getManifests (DirFS w vc.manifestPath) vc.manifestPath = (ms, some e) →
      ruleEngineCalls (validateCmd.run w vc).2 = 0 ∧ (validateCmd.run w vc).1 = some e := by
    intro t ms e hne hstat hdir hwalk
    rw [run_dir_walk_error w vc t ms e hne hstat hdir hwalk]
    simp [ruleEngineCalls]
  have hwalkOk : ∀ t ms, vc.manifestPath ≠ "" → w.Stat vc.manifestPath = .ok t →
      t.IsDir = true →
      getManifests (DirFS w vc.manifestPath) vc.manifestPath = (ms, none) →
      ruleEngineCalls (validateCmd.run w vc).2 = 1 := by
    intro t ms hne hstat hdir hwalk
    rw [run_dir_walk_ok w vc t ms hne hstat hdir hwalk]
    simp [ruleEngineCalls]
  have hfile : ∀ t, vc.manifestPath ≠ "" → w.Stat vc.manifestPath = .ok t →
      t.IsDir = false → ruleEngineCalls (validateCmd.run w vc).2 = 1 := by
    intro t hne hstat hdir
    rw [run_file w vc t hne hstat hdir]
    simp [ruleEngineCalls]
  refine ⟨?_, hempty, hstatErr, hwalkErr, hwalkOk, hfile⟩
  by_cases hne : vc.manifestPath = ""
  · rw [(hempty hne).1]
    exact Nat.zero_le 1
  · cases hstat : w.Stat vc.manifestPath with
    | error e => rw [(hstatErr e hne hstat).1]; exact Nat.zero_le 1
    | ok t =>
      cases hdir : t.IsDir with
      | false => rw [hfile t hne hstat hdir]
      | true =>
        rcases hwalk : getManifests (DirFS w vc.manifestPath) vc.manifestPath with ⟨ms, err⟩
        cases err with
        | some e => rw [(hwalkErr t ms e hne hstat hdir hwalk).1]; exact Nat.zero_le 1
        | none => rw [hwalkOk t ms hne hstat hdir hwalk]

/-- C18. At the check of line 102 the variable `err` is nil, whichever way the branch of
lines 93-100 was left, so the return of the "reading directory" error is never taken.
When `run` returns an error that looks like it, the rule engine was called and returned
that very error. -/
theorem C18_reading_directory_unreachable (w : World) (vc : validateCmd) :
    (∀ isDir calls manifests err calls1,
      validateCmd.branch w vc isDir calls = (Except.ok (manifests, err), calls1) →
        err = none) ∧
    (∀ e, (validateCmd.run w vc).1 = some (ErrorfW "reading directory: " e) →
      ∃ ms, Call.ValidateManifests vc.manifestPath ms ∈ (validateCmd.run w vc).2 ∧
        w.ValidateManifests vc.manifestPath ms = some (ErrorfW "reading directory: " e)) := by
  constructor
  · intro isDir calls manifests err calls1 h
    cases isDir with
    | false =>
      simp only [validateCmd.branch, Bool.false_eq_true, if_false, Prod.mk.injEq,
        Except.ok.injEq] at h
      exact h.1.2.symm
    | true =>
      rcases hwalk : getManifests (DirFS w vc.manifestPath) vc.manifestPath with ⟨ms, e⟩
      cases e with
      | some e1 => simp [validateCmd.branch, hwalk] at h
      | none =>
        simp only [validateCmd.branch, hwalk, if_true, ne_eq, not_true_eq_false, if_false,
          Prod.mk.injEq, Except.ok.injEq] at h
        exact h.1.2.symm
  · intro e hret
    by_cases hne : vc.manifestPath = ""
    · simp [validateCmd.run, hne, Errorf, ErrorfW] at hret
    · cases hstat : w.Stat vc.manifestPath with
      | error e1 =>
        rw [run_stat_error w vc e1 hne hstat] at hret
        exact absurd (Option.some.inj hret) (ErrorfW_ne_reading_directory _ e1 e rfl)
      | ok t =>
        cases hdir : t.IsDir with
        | false =>
          rw [run_file w vc t hne hstat hdir] at hret ⊢
          exact ⟨[vc.manifestPath], by simp, hret⟩
        | true =>
          rcases hwalk : getManifests (DirFS w vc.manifestPath) vc.manifestPath with ⟨ms, err⟩
          cases err with
          | some e1 =>
            rw [run_dir_walk_error w vc t ms e1 hne hstat hdir hwalk] at hret
            have hshape : ∃ e2, e1 = ErrorfW "could not walk directory: " e2 := by
              simp only [getManifests] at hwalk
              split at hwalk
              · simp only [Prod.mk.injEq, Option.some.injEq] at hwalk
                exact ⟨_, hwalk.2.symm⟩
              · simp at hwalk
            obtain ⟨e2, he2⟩ := hshape
            rw [he2] at hret
            exact absurd (Option.some.inj hret) (ErrorfW_ne_reading_directory _ e2 e rfl)
          | none =>
            rw [run_dir_walk_ok w vc t ms hne hstat hdir hwalk] at hret ⊢
            exact ⟨ms, by simp, hret⟩

end Draft
